import Mathlib

/-!
Verification of `src/server-scripts/update-authorized-keys.py`.

The script is a single-node utility that

* fetches an authorized-keys payload over HTTP (`fetch_authorized_keys`),
* rewrites each account's `~/.ssh/authorized_keys` file, backing up any
  previous version and re-asserting owner-only modes
  (`update_authorized_keys`),
* registers / deregisters itself in the host crontab by a
  remove-then-append edit of the job table (`install_cron`,
  `uninstall_cron`), and
* orchestrates the above (`main`).

Python strings are modelled as `List Char`; `str.split('\n')`,
`'\n'.join`, and `str.strip()` are modelled by the executable functions
`splitNl`, `joinNl` and `pyStrip` below, which mirror CPython's semantics
for these calls (`pyStrip` uses the ASCII whitespace set of `str.strip()`).
The filesystem state of one account's artifact (`.ssh` dir mode,
`authorized_keys` content and mode, `authorized_keys.backup`) is an
explicit record; the crontab is a string; HTTP and OS outcomes that the
script merely reacts to are explicit input data.
-/

/-- Python `str.strip()` whitespace test, restricted to the ASCII
whitespace characters (space, tab, newline, carriage return, vertical
tab, form feed). -/
def isPySpace (c : Char) : Bool :=
  c == ' ' || c == '\t' || c == '\n' || c == '\r' || c == '\x0b' || c == '\x0c'

/-- `s.split('\n')` of CPython: split on every newline; the result is
never empty, and splitting the empty string gives `[[]]`. -/
def splitNl : List Char → List (List Char)
  | [] => [[]]
  | c :: rest =>
    if c = '\n' then [] :: splitNl rest
    else (c :: (splitNl rest).headD []) :: (splitNl rest).tail

/-- `'\n'.join(lines)` of CPython. -/
def joinNl : List (List Char) → List Char
  | [] => []
  | [l] => l
  | l :: m :: ls => l ++ '\n' :: joinNl (m :: ls)

/-- Leading-whitespace removal (helper for `str.strip()`). -/
def dropSp : List Char → List Char
  | [] => []
  | c :: r => if isPySpace c then dropSp r else c :: r

/-- `s.lstrip()` of CPython. -/
def lstripPy (s : List Char) : List Char := dropSp s

/-- `s.rstrip()` of CPython. -/
def rstripPy (s : List Char) : List Char := (dropSp s.reverse).reverse

/-- `s.strip()` of CPython. -/
def pyStrip (s : List Char) : List Char := rstripPy (lstripPy s)

/-- Python's `pat in s` substring test (for `List Char` strings). -/
def containsB (pat s : List Char) : Bool := decide (pat <:+: s)

/-- `CRON_COMMENT` from the script: the fixed marker comment tagging the
tool's crontab entry. -/
def CRON_COMMENT : List Char := "# GridBanner authorized_keys updater".toList

/-- The tool's program-name token used by the crontab filters:
`'update-authorized-keys.py' in line`. -/
def TOKEN : List Char := "update-authorized-keys.py".toList

/-- A crontab line belongs to this tool when it contains the marker
comment or the program-name token: the negation of the filter condition
`CRON_COMMENT not in line and 'update-authorized-keys.py' not in line`
used by both `install_cron` and `uninstall_cron`. -/
def toolLine (l : List Char) : Bool := containsB CRON_COMMENT l || containsB TOKEN l

/-- The crontab entry built by `install_cron` around the full command
`cmd` (`{python_path} {script_path} --server ... --key ... --group ...
[--users ...]`):
`*/1 * * * * {cmd} >> /var/log/gridbanner-keys-update.log 2>&1`. -/
def cronEntry (cmd : List Char) : List Char :=
  "*/1 * * * * ".toList ++ cmd ++ " >> /var/log/gridbanner-keys-update.log 2>&1".toList

/-- The crontab-editing core of `install_cron`: given the current crontab
text (empty when `crontab -l` failed) and the rebuilt command `cmd`,
remove every line containing the marker comment or the program-name
token, then append the marker comment and one fresh entry:

    lines = current_crontab.split('\n')
    filtered_lines = [line for line in lines
                      if CRON_COMMENT not in line
                      and 'update-authorized-keys.py' not in line]
    new_crontab = '\n'.join(filtered_lines).strip()
    if new_crontab: new_crontab += '\n'
    new_crontab += CRON_COMMENT + '\n'
    new_crontab += cron_entry + '\n'
-/
def installCron (current cmd : List Char) : List Char :=
  let filtered := (splitNl current).filter (fun l => !toolLine l)
  let newBase := pyStrip (joinNl filtered)
  (if newBase = [] then [] else newBase ++ ['\n']) ++
    (CRON_COMMENT ++ '\n' :: (cronEntry cmd ++ ['\n']))

/-- Outcome of `uninstall_cron` on the job table: return without writing
(no crontab existed), write a replacement table, or clear the table
(`crontab -r`). -/
inductive CronResult where
  | noTable : CronResult
  | write (content : List Char) : CronResult
  | clear : CronResult
deriving DecidableEq

/-- The crontab-editing core of `uninstall_cron`: when `crontab -l`
fails there is nothing to do; otherwise filter out the tool's lines and
either write back the stripped remainder plus a newline, or remove the
crontab entirely when the stripped remainder is empty. -/
def uninstallCron (table : Option (List Char)) : CronResult :=
  match table with
  | none => .noTable
  | some current =>
    let filtered := (splitNl current).filter (fun l => !toolLine l)
    let newCrontab := pyStrip (joinNl filtered)
    if newCrontab = [] then .clear else .write (newCrontab ++ ['\n'])

/-- Classified failure of `update_authorized_keys`' home-resolution step:
`pwd.getpwnam` raising `KeyError` (logged "User '{user}' not found"), or
the `/home/{user}` fallback path missing when the `pwd` module is
unavailable (logged "Home directory for user '{user}' not found").  Both
make the function return `False` for that account. -/
inductive RErr where
  | unknownAccount : RErr
  | homeMissing : RErr
deriving DecidableEq

/-- Availability of the system user database (the Python `pwd` module):
either a lookup table from user name to home directory, or `unavailable`
(the `import pwd` branch raising `ImportError`). -/
inductive UserDb where
  | available (entries : List (List Char × List Char)) : UserDb
  | unavailable : UserDb

/-- Home-directory resolution of `update_authorized_keys`:
`'root'` maps to the fixed `/root`; any other user is looked up via
`pwd.getpwnam(user).pw_dir` (`KeyError` → unknown account); when `pwd`
is unavailable the conventional `/home/{user}` is used and its absence
is a failure. -/
def resolveHome (user : List Char) (db : UserDb) (pathExists : List Char → Bool) :
    Except RErr (List Char) :=
  if user = "root".toList then .ok ("/root".toList)
  else
    match db with
    | .available entries =>
      match entries.lookup user with
      | some home => .ok home
      | none => .error .unknownAccount
    | .unavailable =>
      let home := "/home/".toList ++ user
      if pathExists home then .ok home else .error .homeMissing

/-- State of one account's authorized-keys artifact: the `.ssh`
directory (mode, `none` when absent), the `authorized_keys` file
(content and mode) and the `authorized_keys.backup` file. -/
structure ArtifactState where
  dirMode : Option Nat
  keys : Option (List Char × Nat)
  backup : Option (List Char × Nat)
deriving DecidableEq

/-- An absent artifact: no `.ssh` directory, no keys file, no backup. -/
def emptyArtifact : ArtifactState := ⟨none, none, none⟩

/-- The filesystem steps of `update_authorized_keys` once the home
directory is known, in source order:
`os.makedirs(ssh_dir, mode=0o700, exist_ok=True)` (keeps an existing
directory's mode); `shutil.copy2(keys_file, backup_file)` when the keys
file exists (copies content and mode metadata, overwriting any prior
backup); `open(keys_file, 'w').write(keys_content)` (full replace of the
content; an existing file keeps its mode, the creation mode of a fresh
file is irrelevant because of the chmod that follows);
`os.chmod(keys_file, 0o600)`; `os.chmod(ssh_dir, 0o700)`.  The final
best-effort `os.chown` calls change only ownership, which is not part of
this state. -/
def applyUpdate (st : ArtifactState) (payload : List Char) : ArtifactState :=
  let st1 : ArtifactState := { st with dirMode := some (st.dirMode.getD 0o700) }
  let st2 : ArtifactState :=
    match st1.keys with
    | some kf => { st1 with backup := some kf }
    | none => st1
  let st3 : ArtifactState :=
    { st2 with keys := some (payload, (st2.keys.map Prod.snd).getD 0o600) }
  let st4 : ArtifactState := { st3 with keys := some (payload, 0o600) }
  { st4 with dirMode := some 0o700 }

/-- `update_authorized_keys(user, keys_content)`: resolve the home
directory, then rewrite that home's artifact.  `arts` maps each home
directory to its current artifact state; a successful run returns the
affected home directory and its new artifact state, a failed resolution
returns the classified error (the Python function returns `False` there).
Environment-raised `PermissionError` / other `OSError`s abort a real run
for that account before completion; a returned `.ok` corresponds to the
`return True` path on which every step completed. -/
def update_authorized_keys (user : List Char) (db : UserDb)
    (pathExists : List Char → Bool) (arts : List Char → ArtifactState)
    (payload : List Char) : Except RErr (List Char × ArtifactState) :=
  match resolveHome user db pathExists with
  | .error e => .error e
  | .ok home => .ok (home, applyUpdate (arts home) payload)

/-- Outcome of the HTTP round trip performed by `fetch_authorized_keys`,
as seen by the script: a response delivered without an exception (with
its status and body), an `urllib.error.HTTPError` carrying a status
code, an `urllib.error.URLError` (transport-level failure), or any other
exception. -/
inductive FetchEvent where
  | response (status : Nat) (body : List Char) : FetchEvent
  | httpError (code : Nat) : FetchEvent
  | urlError : FetchEvent
  | otherError : FetchEvent

/-- Return value of `fetch_authorized_keys`: the decoded body on a 200
response, and `None` in every other case — every `except` branch and the
non-200 branch all end in `return None`. -/
def fetch_authorized_keys : FetchEvent → Option (List Char)
  | .response s body => if s = 200 then some body else none
  | .httpError _ => none
  | .urlError => none
  | .otherError => none

/-- The log line emitted by `fetch_authorized_keys`, one variant per
distinct message: this is the only place the failure causes are told
apart (404 → "Group ... not found", 401 → "Authentication failed",
other `HTTPError` codes → "HTTP error {code}", `URLError` → "Network
error", anything else → "Unexpected error"). -/
inductive FetchLog where
  | fetchedOk : FetchLog
  | badStatus (s : Nat) : FetchLog
  | groupNotFound : FetchLog
  | authFailed : FetchLog
  | httpFailure (code : Nat) : FetchLog
  | networkError : FetchLog
  | unexpectedError : FetchLog
deriving DecidableEq

/-- Which log line `fetch_authorized_keys` emits for each outcome. -/
def fetchLogMsg : FetchEvent → FetchLog
  | .response s _ => if s = 200 then .fetchedOk else .badStatus s
  | .httpError c =>
    if c = 404 then .groupNotFound
    else if c = 401 then .authFailed
    else .httpFailure c
  | .urlError => .networkError
  | .otherError => .unexpectedError

/-- `True` exactly when `update_authorized_keys` succeeds for this user,
which depends only on home resolution. -/
def reconcileOk (user : List Char) (db : UserDb) (pathExists : List Char → Bool) : Bool :=
  match resolveHome user db pathExists with
  | .ok _ => true
  | .error _ => false

/-- The per-account loop of `main`: attempt every user in order,
threading the filesystem state and counting successes —
`for user in users: if update_authorized_keys(user, keys_content):
success_count += 1`. -/
def updateUsers (db : UserDb) (pathExists : List Char → Bool) (payload : List Char) :
    List (List Char) → (List Char → ArtifactState) → Nat × (List Char → ArtifactState)
  | [], arts => (0, arts)
  | u :: rest, arts =>
    match update_authorized_keys u db pathExists arts payload with
    | .ok (home, st) =>
      let r := updateUsers db pathExists payload rest
        (fun h => if h = home then st else arts h)
      (r.1 + 1, r.2)
    | .error _ => updateUsers db pathExists payload rest arts

/-- Exit disposition of `main`: the uninstall path, `sys.exit(1)` after
a failed fetch, `sys.exit(1)` when no account succeeded, or normal
completion with the success tally. -/
inductive RunExit where
  | uninstalled : RunExit
  | fetchFatal : RunExit
  | noneSucceeded : RunExit
  | ok (n : Nat) : RunExit
deriving DecidableEq

/-- External mutable state touched by `main`: the crontab (`none` when
no crontab exists) and every account artifact, keyed by home directory. -/
structure World where
  cron : Option (List Char)
  arts : List Char → ArtifactState

/-- Effect of a `uninstall_cron` outcome on the crontab. -/
def applyCron (r : CronResult) (old : Option (List Char)) : Option (List Char) :=
  match r with
  | .noTable => old
  | .write c => some c
  | .clear => none

/-- `main` after argument parsing: if `--uninstall`, edit only the
crontab and return; otherwise take the (pre-determined) fetch result —
`None` aborts with exit 1 before any account is touched — then run the
per-account loop, abort with exit 1 when nothing succeeded, and finally
install the cron entry when `--install` was given (`cmd` is the command
line `install_cron` rebuilds from the arguments; a missing crontab reads
as the empty string). -/
def runMain (uninstallReq installReq : Bool) (users : List (List Char)) (db : UserDb)
    (pathExists : List Char → Bool) (fetched : Option (List Char)) (cmd : List Char)
    (w : World) : RunExit × World :=
  if uninstallReq then
    (.uninstalled, { w with cron := applyCron (uninstallCron w.cron) w.cron })
  else
    match fetched with
    | none => (.fetchFatal, w)
    | some payload =>
      let r := updateUsers db pathExists payload users w.arts
      if r.1 = 0 then (.noneSucceeded, { w with arts := r.2 })
      else if installReq then
        (.ok r.1, { cron := some (installCron (w.cron.getD []) cmd), arts := r.2 })
      else (.ok r.1, { w with arts := r.2 })

/-! ### Lemmas about the string model -/

theorem splitNl_ne_nil (s : List Char) : splitNl s ≠ [] := by
  cases s with
  | nil => simp [splitNl]
  | cons c rest =>
    simp only [splitNl]
    split <;> simp

theorem joinNl_splitNl (s : List Char) : joinNl (splitNl s) = s := by
  induction s with
  | nil => simp [splitNl, joinNl]
  | cons c rest ih =>
    simp only [splitNl]
    split
    · rename_i hc
      obtain ⟨l, ls, hls⟩ := List.exists_cons_of_ne_nil (splitNl_ne_nil rest)
      rw [hls] at ih
      rw [hls, hc, joinNl, ih]
      rfl
    · rename_i hc
      obtain ⟨l, ls, hls⟩ := List.exists_cons_of_ne_nil (splitNl_ne_nil rest)
      rw [hls] at ih ⊢
      simp only [List.headD_cons, List.tail_cons]
      cases ls with
      | nil => simp only [joinNl] at ih ⊢; rw [ih]
      | cons m ms => simp only [joinNl] at ih ⊢; rw [List.cons_append, ih]

theorem splitNl_append_newline (a b : List Char) :
    splitNl (a ++ '\n' :: b) = splitNl a ++ splitNl b := by
  induction a with
  | nil => simp [splitNl]
  | cons c a' ih =>
    by_cases hc : c = '\n'
    · subst hc
      show splitNl ('\n' :: (a' ++ '\n' :: b)) = splitNl ('\n' :: a') ++ splitNl b
      rw [splitNl, splitNl, ih]
      simp
    · obtain ⟨l, ls, hls⟩ := List.exists_cons_of_ne_nil (splitNl_ne_nil a')
      show splitNl (c :: (a' ++ '\n' :: b)) = splitNl (c :: a') ++ splitNl b
      rw [splitNl, splitNl, if_neg hc, if_neg hc, ih, hls]
      simp

theorem splitNl_eq_single (s : List Char) (h : '\n' ∉ s) : splitNl s = [s] := by
  induction s with
  | nil => simp [splitNl]
  | cons c rest ih =>
    simp only [List.mem_cons, not_or] at h
    have hc : ¬ c = '\n' := fun hh => h.1 hh.symm
    simp [splitNl, if_neg hc, ih h.2]

theorem nl_not_mem_of_mem_splitNl (s : List Char) :
    ∀ l ∈ splitNl s, '\n' ∉ l := by
  induction s with
  | nil => intro l hl; simp [splitNl] at hl; simp [hl]
  | cons c rest ih =>
    intro l hl
    simp only [splitNl] at hl
    split at hl
    · rcases List.mem_cons.mp hl with h | h
      · simp [h]
      · exact ih l h
    · rename_i hc
      obtain ⟨m, ms, hms⟩ := List.exists_cons_of_ne_nil (splitNl_ne_nil rest)
      rw [hms] at hl
      simp only [List.headD_cons, List.tail_cons] at hl
      rcases List.mem_cons.mp hl with h | h
      · subst h
        intro hmem
        rcases List.mem_cons.mp hmem with h | h
        · exact hc h.symm
        · exact ih m (by rw [hms]; exact List.mem_cons_self _ _) h
      · exact ih l (by rw [hms]; exact List.mem_cons_of_mem _ h)

theorem headD_splitNl_isPrefixE (s : List Char) :
    ∃ t, (splitNl s).headD [] ++ t = s := by
  induction s with
  | nil => exact ⟨[], rfl⟩
  | cons c rest ih =>
    simp only [splitNl]
    split
    · rename_i hc
      exact ⟨c :: rest, rfl⟩
    · obtain ⟨m, ms, hms⟩ := List.exists_cons_of_ne_nil (splitNl_ne_nil rest)
      rw [hms]
      simp only [List.headD_cons]
      rw [hms] at ih
      simp only [List.headD_cons] at ih
      obtain ⟨t, ht⟩ := ih
      exact ⟨t, by rw [List.cons_append, ht]⟩

theorem mem_splitNl_infixE (s : List Char) : ∀ l ∈ splitNl s, l <:+: s := by
  induction s with
  | nil => intro l hl; simp [splitNl] at hl; simp [hl]
  | cons c rest ih =>
    intro l hl
    simp only [splitNl] at hl
    split at hl
    · rcases List.mem_cons.mp hl with h | h
      · subst h; exact ⟨[], c :: rest, rfl⟩
      · obtain ⟨u, v, huv⟩ := ih l h
        exact ⟨c :: u, v, by subst huv; simp⟩
    · obtain ⟨m, ms, hms⟩ := List.exists_cons_of_ne_nil (splitNl_ne_nil rest)
      rw [hms] at hl
      simp only [List.headD_cons, List.tail_cons] at hl
      rcases List.mem_cons.mp hl with h | h
      · subst h
        have := headD_splitNl_isPrefixE rest
        rw [hms] at this
        simp only [List.headD_cons] at this
        obtain ⟨t, ht⟩ := this
        exact ⟨[], t, by simp [ht]⟩
      · obtain ⟨u, v, huv⟩ := ih l (by rw [hms]; exact List.mem_cons_of_mem _ h)
        exact ⟨c :: u, v, by subst huv; simp⟩

theorem dropSp_sfxE (l : List Char) : ∃ u, u ++ dropSp l = l := by
  induction l with
  | nil => exact ⟨[], rfl⟩
  | cons c r ih =>
    by_cases hc : isPySpace c
    · obtain ⟨u, hu⟩ := ih
      exact ⟨c :: u, by simp [dropSp, hc, hu]⟩
    · exact ⟨[], by simp [dropSp, hc]⟩

theorem dropSp_head (l : List Char) (a : Char) (r : List Char)
    (h : dropSp l = a :: r) : isPySpace a = false := by
  induction l with
  | nil => simp [dropSp] at h
  | cons c s ih =>
    by_cases hc : isPySpace c
    · exact ih (by rw [← h, dropSp, if_pos hc])
    · rw [dropSp, if_neg hc] at h
      cases h
      simp [Bool.not_eq_true] at hc
      exact hc

theorem dropSp_idem (l : List Char) : dropSp (dropSp l) = dropSp l := by
  cases hd : dropSp l with
  | nil => simp [dropSp]
  | cons a r => rw [dropSp, if_neg (by simp [dropSp_head l a r hd])]

theorem dropSp_cons_not_space (a : Char) (l : List Char) (h : isPySpace a = false) :
    dropSp (a :: l) = a :: l := by
  rw [dropSp, if_neg (by simp [h])]

theorem rstripPy_pfxE (z : List Char) : ∃ t, rstripPy z ++ t = z := by
  obtain ⟨u, hu⟩ := dropSp_sfxE z.reverse
  refine ⟨u.reverse, ?_⟩
  rw [rstripPy, ← List.reverse_append, hu, List.reverse_reverse]

theorem pyStrip_infixE (s : List Char) : pyStrip s <:+: s := by
  obtain ⟨u, hu⟩ := dropSp_sfxE s
  obtain ⟨t, ht⟩ := rstripPy_pfxE (dropSp s)
  exact ⟨u, t, by rw [pyStrip, lstripPy, List.append_assoc, ht, hu]⟩

theorem rstripPy_rstripPy (z : List Char) : rstripPy (rstripPy z) = rstripPy z := by
  rw [rstripPy, rstripPy, List.reverse_reverse, dropSp_idem]


theorem rstripPy_append_nl (z : List Char) : rstripPy (z ++ ['\n']) = rstripPy z := by
  rw [rstripPy, rstripPy, List.reverse_append]
  simp only [List.reverse_cons, List.reverse_nil, List.nil_append, List.singleton_append]
  rw [dropSp, if_pos (by decide : isPySpace '\n' = true)]

theorem pyStrip_append_nl (s : List Char) :
    pyStrip (pyStrip s ++ ['\n']) = pyStrip s := by
  cases hy : pyStrip s with
  | nil => rfl
  | cons a y' =>
    have ha : isPySpace a = false := by
      obtain ⟨t, ht⟩ := rstripPy_pfxE (dropSp s)
      have hpre : pyStrip s ++ t = dropSp s := ht
      rw [hy] at hpre
      exact dropSp_head s a (y' ++ t) (by rw [← hpre]; rfl)
    have h1 : lstripPy ((a :: y') ++ ['\n']) = (a :: y') ++ ['\n'] := by
      show dropSp (a :: (y' ++ ['\n'])) = a :: (y' ++ ['\n'])
      exact dropSp_cons_not_space a _ ha
    have h2 : rstripPy ((a :: y') ++ ['\n']) = rstripPy (a :: y') :=
      rstripPy_append_nl _
    have h3 : rstripPy (a :: y') = a :: y' := by
      have h4 : rstripPy (pyStrip s) = pyStrip s := rstripPy_rstripPy (lstripPy s)
      rw [hy] at h4
      exact h4
    show pyStrip ((a :: y') ++ ['\n']) = a :: y'
    rw [pyStrip, h1, h2, h3]

theorem joinNl_append_empty : ∀ (L : List (List Char)), L ≠ [] →
    joinNl (L ++ [[]]) = joinNl L ++ ['\n']
  | [], h => absurd rfl h
  | [l], _ => by simp [joinNl]
  | l :: m :: ls, _ => by
    have h2 := joinNl_append_empty (m :: ls) (by simp)
    simp only [List.cons_append] at h2 ⊢
    simp only [joinNl]
    rw [h2]
    simp

theorem pfx_append_cons : ∀ (x a b : List Char) (c : Char),
    x <+: a ++ c :: b → c ∉ x → x <+: a
  | [], a, _, _, _, _ => ⟨a, rfl⟩
  | e :: x', a, b, c, h, hc => by
    cases a with
    | nil =>
      obtain ⟨t, ht⟩ := h
      simp only [List.nil_append, List.cons_append] at ht
      obtain ⟨he, -⟩ := List.cons_eq_cons.mp ht
      exact absurd (List.mem_cons.mpr (Or.inl he.symm)) hc
    | cons d a' =>
      obtain ⟨t, ht⟩ := h
      simp only [List.cons_append] at ht
      obtain ⟨he, ht'⟩ := List.cons_eq_cons.mp ht
      subst he
      have hx : x' <+: a' :=
        pfx_append_cons x' a' b c ⟨t, by simpa using ht'⟩
          (fun hm => hc (List.mem_cons_of_mem _ hm))
      obtain ⟨q, hq⟩ := hx
      exact ⟨q, by rw [List.cons_append, hq]⟩

theorem infx_append_cons : ∀ (u x v a b : List Char) (c : Char),
    u ++ x ++ v = a ++ c :: b → c ∉ x → x <:+: a ∨ x <:+: b
  | [], x, v, a, b, c, h, hc => by
    simp only [List.nil_append] at h
    exact Or.inl (pfx_append_cons x a b c ⟨v, h⟩ hc).isInfix
  | d :: u', x, v, a, b, c, h, hc => by
    cases a with
    | nil =>
      simp only [List.nil_append, List.cons_append] at h
      obtain ⟨-, h'⟩ := List.cons_eq_cons.mp h
      exact Or.inr ⟨u', v, h'⟩
    | cons d' a' =>
      simp only [List.cons_append] at h
      obtain ⟨he, h'⟩ := List.cons_eq_cons.mp h
      rcases infx_append_cons u' x v a' b c (by simpa using h') hc with h1 | h1
      · obtain ⟨p, q, hpq⟩ := h1
        exact Or.inl ⟨d' :: p, q, by rw [← hpq]; simp⟩
      · exact Or.inr h1

theorem infx_joinNl : ∀ (L : List (List Char)) (x : List Char), L ≠ [] →
    x <:+: joinNl L → '\n' ∉ x → ∃ l ∈ L, x <:+: l
  | [], _, h, _, _ => absurd rfl h
  | [l], x, _, hx, _ => ⟨l, List.mem_cons_self _ _, hx⟩
  | l :: m :: ls, x, _, hx, hnl => by
    obtain ⟨u, v, huv⟩ := hx
    have huv' : u ++ x ++ v = l ++ '\n' :: joinNl (m :: ls) := by
      rw [huv]; rfl
    rcases infx_append_cons u x v l (joinNl (m :: ls)) '\n' huv' hnl with h1 | h1
    · exact ⟨l, List.mem_cons_self _ _, h1⟩
    · obtain ⟨f, hf, hxf⟩ := infx_joinNl (m :: ls) x (by simp) h1 hnl
      exact ⟨f, List.mem_cons_of_mem _ hf, hxf⟩

theorem containsB_iff (pat s : List Char) : containsB pat s = true ↔ pat <:+: s :=
  decide_eq_true_iff

theorem toolLine_false_of_infx {l f : List Char} (hlf : l <:+: f)
    (hf : toolLine f = false) : toolLine l = false := by
  rw [toolLine, Bool.or_eq_false_iff] at hf ⊢
  obtain ⟨hf1, hf2⟩ := hf
  constructor
  · rw [← Bool.not_eq_true, containsB_iff] at hf1 ⊢
    exact fun h => hf1 (h.trans hlf)
  · rw [← Bool.not_eq_true, containsB_iff] at hf2 ⊢
    exact fun h => hf2 (h.trans hlf)

/-- Every line of the stripped rejoin of tool-free lines is tool-free. -/
theorem base_lines_toolFree (L : List (List Char))
    (hL : ∀ f ∈ L, toolLine f = false) :
    ∀ l ∈ splitNl (pyStrip (joinNl L)), toolLine l = false := by
  intro l hl
  by_cases hLnil : L = []
  · subst hLnil
    have : l = [] := by
      have h0 : splitNl (pyStrip (joinNl [])) = [[]] := by rfl
      rw [h0] at hl
      simpa using hl
    subst this
    decide
  · have h1 : l <:+: pyStrip (joinNl L) := mem_splitNl_infixE _ l hl
    have h2 : pyStrip (joinNl L) <:+: joinNl L := pyStrip_infixE _
    have h3 : '\n' ∉ l := nl_not_mem_of_mem_splitNl _ l hl
    obtain ⟨f, hf, hlf⟩ := infx_joinNl L l hLnil (h1.trans h2) h3
    exact toolLine_false_of_infx hlf (hL f hf)

theorem nl_not_mem_cronEntry (cmd : List Char) (h : '\n' ∉ cmd) :
    '\n' ∉ cronEntry cmd := by
  rw [cronEntry]
  intro hmem
  rcases List.mem_append.mp hmem with hmem | hmem
  · rcases List.mem_append.mp hmem with hmem | hmem
    · exact absurd hmem (by decide)
    · exact h hmem
  · exact absurd hmem (by decide)

theorem toolLine_cronEntry (cmd : List Char) (htok : TOKEN <:+: cmd) :
    toolLine (cronEntry cmd) = true := by
  rw [toolLine, Bool.or_eq_true_iff]
  refine Or.inr ((containsB_iff _ _).mpr ?_)
  exact htok.trans ⟨"*/1 * * * * ".toList,
    " >> /var/log/gridbanner-keys-update.log 2>&1".toList, rfl⟩

/-- Line structure of the crontab produced by `install_cron`: the
tool-free survivors of the old table, then the marker comment, then the
single fresh entry, then the empty final line from the trailing
newline. -/
theorem splitNl_installCron (t cmd : List Char) (hnl : '\n' ∉ cmd) :
    splitNl (installCron t cmd) =
      (if pyStrip (joinNl ((splitNl t).filter (fun l => !toolLine l))) = [] then []
       else splitNl (pyStrip (joinNl ((splitNl t).filter (fun l => !toolLine l))))) ++
      [CRON_COMMENT, cronEntry cmd, []] := by
  rw [installCron]
  have hcom : splitNl CRON_COMMENT = [CRON_COMMENT] :=
    splitNl_eq_single _ (by decide)
  have hent : splitNl (cronEntry cmd) = [cronEntry cmd] :=
    splitNl_eq_single _ (nl_not_mem_cronEntry cmd hnl)
  have htail : splitNl (CRON_COMMENT ++ '\n' :: (cronEntry cmd ++ ['\n'])) =
      [CRON_COMMENT, cronEntry cmd, []] := by
    rw [splitNl_append_newline, hcom]
    rw [show cronEntry cmd ++ ['\n'] = cronEntry cmd ++ '\n' :: [] from rfl]
    rw [splitNl_append_newline, hent]
    rfl
  split
  · rename_i hbase
    simpa using htail
  · rename_i hbase
    rw [List.append_assoc,
      show ['\n'] ++ (CRON_COMMENT ++ '\n' :: (cronEntry cmd ++ ['\n'])) =
        '\n' :: (CRON_COMMENT ++ '\n' :: (cronEntry cmd ++ ['\n'])) from rfl,
      splitNl_append_newline, htail]

theorem installCron_def (current cmd : List Char) :
    installCron current cmd =
      (if pyStrip (joinNl ((splitNl current).filter (fun l => !toolLine l))) = [] then []
       else pyStrip (joinNl ((splitNl current).filter (fun l => !toolLine l))) ++ ['\n']) ++
      (CRON_COMMENT ++ '\n' :: (cronEntry cmd ++ ['\n'])) := rfl

theorem uninstallCron_some (current : List Char) :
    uninstallCron (some current) =
      (if pyStrip (joinNl ((splitNl current).filter (fun l => !toolLine l))) = [] then .clear
       else .write (pyStrip (joinNl ((splitNl current).filter (fun l => !toolLine l)))
         ++ ['\n'])) := rfl

/-- Claim C1: for every starting job table (including one already
containing entries of this tool), `install_cron` removes every line
containing the marker comment or the program-name token, then appends
one marker comment plus one new entry; the result holds exactly one line
containing the tool's program-name token, and installing twice yields
the same table as installing once.  The hypotheses record that the
rebuilt command line contains the script's file name (it embeds the
script's absolute path) and contains no newline. -/
theorem c1_installCron_single_entry_idem (t cmd : List Char)
    (htok : TOKEN <:+: cmd) (hnl : '\n' ∉ cmd) :
    (∃ P, splitNl (installCron t cmd) = P ++ [CRON_COMMENT, cronEntry cmd, []] ∧
        ∀ l ∈ P, toolLine l = false) ∧
    (splitNl (installCron t cmd)).countP (fun l => containsB TOKEN l) = 1 ∧
    installCron (installCron t cmd) cmd = installCron t cmd := by
  have hfree : ∀ f ∈ (splitNl t).filter (fun l => !toolLine l), toolLine f = false := by
    intro f hf
    simpa using List.of_mem_filter hf
  have hstruct := splitNl_installCron t cmd hnl
  have hCtool : toolLine CRON_COMMENT = true := by decide
  have hNiltool : toolLine ([] : List Char) = false := by decide
  have hCtok : containsB TOKEN CRON_COMMENT = false := by decide
  have hNiltok : containsB TOKEN ([] : List Char) = false := by decide
  have hcmdE : cmd <:+: cronEntry cmd :=
    ⟨"*/1 * * * * ".toList,
      " >> /var/log/gridbanner-keys-update.log 2>&1".toList, rfl⟩
  have hEtok : containsB TOKEN (cronEntry cmd) = true :=
    (containsB_iff _ _).mpr (htok.trans hcmdE)
  have hEtool : toolLine (cronEntry cmd) = true := by
    rw [toolLine, hEtok, Bool.or_true]
  set B := pyStrip (joinNl ((splitNl t).filter (fun l => !toolLine l))) with hB
  by_cases hBnil : B = []
  · rw [if_pos hBnil] at hstruct
    simp only [List.nil_append] at hstruct
    refine ⟨⟨[], by simpa using hstruct, by simp⟩, ?_, ?_⟩
    · rw [hstruct]
      simp [List.countP_cons, hCtok, hEtok, hNiltok]
    · rw [installCron_def (installCron t cmd) cmd, hstruct]
      have hfilt : ([CRON_COMMENT, cronEntry cmd, []] : List (List Char)).filter
          (fun l => !toolLine l) = [[]] := by
        simp [List.filter_cons, hCtool, hEtool, hNiltool]
      rw [hfilt]
      have hempty : pyStrip (joinNl [([] : List Char)]) = [] := rfl
      rw [hempty, if_pos rfl]
      rw [installCron_def t cmd, ← hB, if_pos hBnil]
  · rw [if_neg hBnil] at hstruct
    have hPfree : ∀ l ∈ splitNl B, toolLine l = false := by
      rw [hB]
      exact base_lines_toolFree _ hfree
    refine ⟨⟨splitNl B, hstruct, hPfree⟩, ?_, ?_⟩
    · rw [hstruct, List.countP_append]
      have h0 : (splitNl B).countP (fun l => containsB TOKEN l) = 0 := by
        rw [List.countP_eq_zero]
        intro l hl
        have hl2 := hPfree l hl
        rw [toolLine, Bool.or_eq_false_iff] at hl2
        simp [hl2.2]
      rw [h0]
      simp [List.countP_cons, hCtok, hEtok, hNiltok]
    · rw [installCron_def (installCron t cmd) cmd, hstruct]
      have hfilt : ((splitNl B) ++ [CRON_COMMENT, cronEntry cmd, []]).filter
          (fun l => !toolLine l) = splitNl B ++ [[]] := by
        rw [List.filter_append]
        rw [List.filter_eq_self.mpr (fun l hl => by simp [hPfree l hl])]
        simp [List.filter_cons, hCtool, hEtool, hNiltool]
      rw [hfilt]
      have hjoin : joinNl (splitNl B ++ [[]]) = B ++ ['\n'] := by
        rw [joinNl_append_empty _ (splitNl_ne_nil B), joinNl_splitNl]
      rw [hjoin]
      have hstrip : pyStrip (B ++ ['\n']) = B := by
        rw [hB]
        exact pyStrip_append_nl _
      rw [hstrip, if_neg hBnil]
      rw [installCron_def t cmd, ← hB, if_neg hBnil]

/-- Witness for C1 at a concrete crontab (one foreign line plus stale
marker and entry lines of this tool) and a concrete command line. -/
theorem c1_witness :
    TOKEN <:+: "p update-authorized-keys.py -k x".toList ∧
    '\n' ∉ "p update-authorized-keys.py -k x".toList ∧
    ((∃ P, splitNl (installCron
          "a\n# GridBanner authorized_keys updater\nb update-authorized-keys.py\n".toList
          "p update-authorized-keys.py -k x".toList) =
        P ++ [CRON_COMMENT, cronEntry "p update-authorized-keys.py -k x".toList, []] ∧
        ∀ l ∈ P, toolLine l = false) ∧
      (splitNl (installCron
          "a\n# GridBanner authorized_keys updater\nb update-authorized-keys.py\n".toList
          "p update-authorized-keys.py -k x".toList)).countP
            (fun l => containsB TOKEN l) = 1 ∧
      installCron (installCron
          "a\n# GridBanner authorized_keys updater\nb update-authorized-keys.py\n".toList
          "p update-authorized-keys.py -k x".toList)
          "p update-authorized-keys.py -k x".toList =
        installCron
          "a\n# GridBanner authorized_keys updater\nb update-authorized-keys.py\n".toList
          "p update-authorized-keys.py -k x".toList) :=
  ⟨by decide, by decide,
    c1_installCron_single_entry_idem _ _ (by decide) (by decide)⟩

/-- Counterexample to C9 as stated: the table `" x\n"` contains no line
of this tool, yet `uninstall_cron` writes back `"x\n"` — the surviving
line `" x"` is rewritten as `"x"`, not written back unchanged, because
the rebuilt table is passed through `str.strip()`. -/
theorem c9_counterexample :
    (∀ l ∈ splitNl " x\n".toList, toolLine l = false) ∧
    uninstallCron (some " x\n".toList) = .write "x\n".toList ∧
    " x\n".toList ≠ "x\n".toList := by
  refine ⟨by decide, by decide, by decide⟩

/-- Claim C9 (amended): uninstall with no crontab returns without
writing; a table with no tool entries is written back as the whole table
passed through `str.strip()` with a single trailing newline appended
(so interior lines survive verbatim, but surrounding whitespace and
blank edge lines are dropped); when the stripped filtered table is
empty, the table is cleared entirely. -/
theorem c9_uninstallCron_no_tool_entries (t : List Char)
    (h : ∀ l ∈ splitNl t, toolLine l = false) :
    uninstallCron none = .noTable ∧
    uninstallCron (some t) =
      (if pyStrip t = [] then .clear else .write (pyStrip t ++ ['\n'])) := by
  refine ⟨rfl, ?_⟩
  rw [uninstallCron_some]
  rw [List.filter_eq_self.mpr (fun l hl => by simp [h l hl]), joinNl_splitNl]

/-- Witness for C9 (amended) at the two-line table `"a\nb\n"`. -/
theorem c9_witness :
    (∀ l ∈ splitNl "a\nb\n".toList, toolLine l = false) ∧
    (uninstallCron none = .noTable ∧
      uninstallCron (some "a\nb\n".toList) =
        (if pyStrip "a\nb\n".toList = [] then .clear
         else .write (pyStrip "a\nb\n".toList ++ ['\n']))) :=
  ⟨by decide, c9_uninstallCron_no_tool_entries _ (by decide)⟩

/-! ### Lemmas about the reconciler -/

theorem update_ok_inv (user : List Char) (db : UserDb)
    (pathExists : List Char → Bool) (arts : List Char → ArtifactState)
    (payload home : List Char) (st : ArtifactState)
    (h : update_authorized_keys user db pathExists arts payload = .ok (home, st)) :
    resolveHome user db pathExists = .ok home ∧
    st = applyUpdate (arts home) payload := by
  unfold update_authorized_keys at h
  cases hres : resolveHome user db pathExists with
  | error e => rw [hres] at h; simp at h
  | ok h0 =>
    rw [hres] at h
    simp only [Except.ok.injEq, Prod.mk.injEq] at h
    obtain ⟨h1, h2⟩ := h
    subst h1
    exact ⟨rfl, h2.symm⟩

theorem applyUpdate_keys (st : ArtifactState) (payload : List Char) :
    (applyUpdate st payload).keys = some (payload, 0o600) := by
  cases st with
  | mk d k b => cases k <;> rfl

theorem applyUpdate_dirMode (st : ArtifactState) (payload : List Char) :
    (applyUpdate st payload).dirMode = some 0o700 := by
  cases st with
  | mk d k b => cases k <;> rfl

theorem applyUpdate_backup_of_keys (st : ArtifactState) (payload X : List Char)
    (m : Nat) (h : st.keys = some (X, m)) :
    (applyUpdate st payload).backup = some (X, m) := by
  cases st with
  | mk d k b =>
    cases k with
    | none => simp at h
    | some kf =>
      simp only [Option.some.injEq] at h
      subst h
      rfl

theorem applyUpdate_backup_of_none (st : ArtifactState) (payload : List Char)
    (h : st.keys = none) :
    (applyUpdate st payload).backup = st.backup := by
  cases st with
  | mk d k b =>
    cases k with
    | none => rfl
    | some kf => simp at h

/-- Claim C2: for every account and payload, a successful reconciliation
leaves the account's authorized_keys file containing exactly the fetched
payload (at mode 0600) — the previous content is fully replaced, never
appended to, whatever the prior artifact state was. -/
theorem c2_reconcile_writes_payload (user : List Char) (db : UserDb)
    (pathExists : List Char → Bool) (arts : List Char → ArtifactState)
    (payload home : List Char) (st : ArtifactState)
    (h : update_authorized_keys user db pathExists arts payload = .ok (home, st)) :
    st.keys = some (payload, 0o600) := by
  obtain ⟨-, h2⟩ := update_ok_inv user db pathExists arts payload home st h
  rw [h2, applyUpdate_keys]

/-- Witness for C2: reconciling `root` over a pre-existing keys file
with different content leaves exactly the new payload. -/
theorem c2_witness :
    update_authorized_keys "root".toList (.available []) (fun _ => false)
        (fun _ => ⟨some 0o755, some ("old keys".toList, 0o644), none⟩)
        "new keys".toList =
      .ok ("/root".toList,
        applyUpdate ⟨some 0o755, some ("old keys".toList, 0o644), none⟩
          "new keys".toList) ∧
    (applyUpdate ⟨some 0o755, some ("old keys".toList, 0o644), none⟩
        "new keys".toList).keys = some ("new keys".toList, 0o600) := by
  have hup : update_authorized_keys "root".toList (.available []) (fun _ => false)
      (fun _ => ⟨some 0o755, some ("old keys".toList, 0o644), none⟩)
      "new keys".toList =
        .ok ("/root".toList,
          applyUpdate ⟨some 0o755, some ("old keys".toList, 0o644), none⟩
            "new keys".toList) := by
    simp [update_authorized_keys, resolveHome]
  exact ⟨hup, c2_reconcile_writes_payload _ _ _ _ _ _ _ hup⟩

/-- Claim C3: if the account's authorized_keys file existed with content
`X` (and mode `m`) before reconciliation, a successful reconciliation
leaves the sibling backup file containing exactly `(X, m)` — whatever
the new payload is, and overwriting any prior backup. -/
theorem c3_reconcile_backup (user : List Char) (db : UserDb)
    (pathExists : List Char → Bool) (arts : List Char → ArtifactState)
    (payload home : List Char) (st : ArtifactState) (X : List Char) (m : Nat)
    (h : update_authorized_keys user db pathExists arts payload = .ok (home, st))
    (hk : (arts home).keys = some (X, m)) :
    st.backup = some (X, m) := by
  obtain ⟨-, h2⟩ := update_ok_inv user db pathExists arts payload home st h
  rw [h2, applyUpdate_backup_of_keys _ _ X m hk]

/-- Witness for C3: the prior keys file `"OLD"` lands in the backup,
overwriting a stale backup, whatever the new payload is. -/
theorem c3_witness :
    update_authorized_keys "alice".toList
        (.available [("alice".toList, "/home/alice".toList)]) (fun _ => false)
        (fun _ => ⟨some 0o700, some ("OLD".toList, 0o600),
          some ("stale backup".toList, 0o600)⟩) "NEW".toList =
      .ok ("/home/alice".toList,
        applyUpdate ⟨some 0o700, some ("OLD".toList, 0o600),
          some ("stale backup".toList, 0o600)⟩ "NEW".toList) ∧
    (⟨some 0o700, some ("OLD".toList, 0o600),
        some ("stale backup".toList, 0o600)⟩ : ArtifactState).keys =
      some ("OLD".toList, 0o600) ∧
    (applyUpdate ⟨some 0o700, some ("OLD".toList, 0o600),
        some ("stale backup".toList, 0o600)⟩ "NEW".toList).backup =
      some ("OLD".toList, 0o600) := by
  have hup : update_authorized_keys "alice".toList
      (.available [("alice".toList, "/home/alice".toList)]) (fun _ => false)
      (fun _ => ⟨some 0o700, some ("OLD".toList, 0o600),
        some ("stale backup".toList, 0o600)⟩) "NEW".toList =
        .ok ("/home/alice".toList,
          applyUpdate ⟨some 0o700, some ("OLD".toList, 0o600),
            some ("stale backup".toList, 0o600)⟩ "NEW".toList) := by
    simp [update_authorized_keys, resolveHome]
  exact ⟨hup, rfl, c3_reconcile_backup _ _ _ _ _ _ _ _ _ hup rfl⟩

/-- Claim C4: after every successful reconciliation the `.ssh` directory
mode is 0700 and the authorized_keys file mode is 0600, regardless of
the modes the directory or file had before. -/
theorem c4_reconcile_modes (user : List Char) (db : UserDb)
    (pathExists : List Char → Bool) (arts : List Char → ArtifactState)
    (payload home : List Char) (st : ArtifactState)
    (h : update_authorized_keys user db pathExists arts payload = .ok (home, st)) :
    st.dirMode = some 0o700 ∧ st.keys.map Prod.snd = some 0o600 := by
  obtain ⟨-, h2⟩ := update_ok_inv user db pathExists arts payload home st h
  rw [h2, applyUpdate_dirMode, applyUpdate_keys]
  exact ⟨rfl, rfl⟩

/-- Witness for C4: prior world-readable modes (0777 directory, 0666
file) are forced back to 0700 / 0600. -/
theorem c4_witness :
    update_authorized_keys "root".toList .unavailable (fun _ => false)
        (fun _ => ⟨some 0o777, some ("k".toList, 0o666), none⟩) "p".toList =
      .ok ("/root".toList,
        applyUpdate ⟨some 0o777, some ("k".toList, 0o666), none⟩ "p".toList) ∧
    ((applyUpdate ⟨some 0o777, some ("k".toList, 0o666), none⟩
        "p".toList).dirMode = some 0o700 ∧
      (applyUpdate ⟨some 0o777, some ("k".toList, 0o666), none⟩
        "p".toList).keys.map Prod.snd = some 0o600) := by
  have hup : update_authorized_keys "root".toList .unavailable (fun _ => false)
      (fun _ => ⟨some 0o777, some ("k".toList, 0o666), none⟩) "p".toList =
        .ok ("/root".toList,
          applyUpdate ⟨some 0o777, some ("k".toList, 0o666), none⟩ "p".toList) := by
    simp [update_authorized_keys, resolveHome]
  exact ⟨hup, c4_reconcile_modes _ _ _ _ _ _ _ hup⟩

/-- Claim C10: when the account's authorized_keys file does not exist
before reconciliation, a successful reconciliation leaves the backup
file exactly as it was — in particular a stale backup from an earlier
run survives unchanged, because the backup step runs only when a prior
keys file exists. -/
theorem c10_backup_frame (user : List Char) (db : UserDb)
    (pathExists : List Char → Bool) (arts : List Char → ArtifactState)
    (payload home : List Char) (st : ArtifactState)
    (h : update_authorized_keys user db pathExists arts payload = .ok (home, st))
    (hk : (arts home).keys = none) :
    st.backup = (arts home).backup := by
  obtain ⟨-, h2⟩ := update_ok_inv user db pathExists arts payload home st h
  rw [h2, applyUpdate_backup_of_none _ _ hk]

/-- Witness for C10: with no prior keys file, the stale backup
`"stale"` is still there after a successful reconciliation. -/
theorem c10_witness :
    update_authorized_keys "root".toList (.available []) (fun _ => false)
        (fun _ => ⟨none, none, some ("stale".toList, 0o600)⟩) "p".toList =
      .ok ("/root".toList,
        applyUpdate ⟨none, none, some ("stale".toList, 0o600)⟩ "p".toList) ∧
    (⟨none, none, some ("stale".toList, 0o600)⟩ : ArtifactState).keys = none ∧
    (applyUpdate ⟨none, none, some ("stale".toList, 0o600)⟩ "p".toList).backup =
      (⟨none, none, some ("stale".toList, 0o600)⟩ : ArtifactState).backup := by
  have hup : update_authorized_keys "root".toList (.available []) (fun _ => false)
      (fun _ => ⟨none, none, some ("stale".toList, 0o600)⟩) "p".toList =
        .ok ("/root".toList,
          applyUpdate ⟨none, none, some ("stale".toList, 0o600)⟩ "p".toList) := by
    simp [update_authorized_keys, resolveHome]
  exact ⟨hup, rfl, c10_backup_frame _ _ _ _ _ _ _ hup rfl⟩

/-- Claim C7: home resolution maps `root` to the fixed `/root`; any
other account is looked up in the user database, with a missing entry
giving the unknown-account failure; when the database is unavailable the
conventional `/home/{account}` fallback is used and the home-missing
failure is raised exactly when that path does not exist. -/
theorem c7_resolveHome_spec (u : List Char) (pathExists : List Char → Bool) :
    (∀ db, resolveHome "root".toList db pathExists = .ok "/root".toList) ∧
    (u ≠ "root".toList →
      (∀ entries home, entries.lookup u = some home →
        resolveHome u (.available entries) pathExists = .ok home) ∧
      (∀ entries, entries.lookup u = none →
        resolveHome u (.available entries) pathExists = .error .unknownAccount) ∧
      resolveHome u .unavailable pathExists =
        (if pathExists ("/home/".toList ++ u) then .ok ("/home/".toList ++ u)
         else .error .homeMissing)) := by
  constructor
  · intro db
    unfold resolveHome
    rw [if_pos rfl]
  · intro hu
    refine ⟨?_, ?_, ?_⟩
    · intro entries home hl
      unfold resolveHome
      rw [if_neg hu]
      simp [hl]
    · intro entries hl
      unfold resolveHome
      rw [if_neg hu]
      simp [hl]
    · unfold resolveHome
      rw [if_neg hu]

/-- Witness for C7, exercising all four of its branches at concrete
accounts and a concrete one-entry user database. -/
theorem c7_witness :
    resolveHome "root".toList (.available []) (fun _ => false) =
      .ok "/root".toList ∧
    resolveHome "alice".toList
      (.available [("alice".toList, "/home/alice".toList)]) (fun _ => false) =
      .ok "/home/alice".toList ∧
    resolveHome "ghost".toList
      (.available [("alice".toList, "/home/alice".toList)]) (fun _ => false) =
      .error .unknownAccount ∧
    resolveHome "alice".toList .unavailable (fun _ => false) =
      .error .homeMissing := by
  refine ⟨(c7_resolveHome_spec "alice".toList (fun _ => false)).1 _, ?_, ?_, ?_⟩
  · exact ((c7_resolveHome_spec "alice".toList (fun _ => false)).2
      (by decide)).1 _ _ rfl
  · exact ((c7_resolveHome_spec "ghost".toList (fun _ => false)).2
      (by decide)).2.1 _ rfl
  · have h := ((c7_resolveHome_spec "alice".toList (fun _ => false)).2
      (by decide)).2.2
    simpa using h

/-- Claim C5: on a run that is not an uninstall, a failed key fetch
(the function returned `None`, e.g. after an HTTP 404 for the group) is
fatal before any account is processed: `main` exits with the fatal
outcome and the external world — every account artifact and the job
table — is returned exactly as it was. -/
theorem c5_fetch_failure_aborts (ev : FetchEvent)
    (h : fetch_authorized_keys ev = none) (installReq : Bool)
    (users : List (List Char)) (db : UserDb) (pathExists : List Char → Bool)
    (cmd : List Char) (w : World) :
    runMain false installReq users db pathExists (fetch_authorized_keys ev) cmd w =
      (.fetchFatal, w) := by
  rw [h]
  rfl

/-- Witness for C5 at the spec's scenario: the server answers HTTP 404,
the fetch returns `None`, and the run aborts with the world untouched. -/
theorem c5_witness :
    fetch_authorized_keys (.httpError 404) = none ∧
    runMain false true ["root".toList] (.available []) (fun _ => false)
        (fetch_authorized_keys (.httpError 404)) []
        ⟨none, fun _ => emptyArtifact⟩ =
      (.fetchFatal, ⟨none, fun _ => emptyArtifact⟩) :=
  ⟨rfl, c5_fetch_failure_aborts (.httpError 404) rfl true _ _ _ _ _⟩

/-- Claim C6: the per-account loop attempts every configured account
regardless of other accounts' failures — the success tally counts
exactly the accounts whose own reconciliation succeeds — and on the
concrete list `[alice, ghost]` (with only `alice` in the user database)
the run succeeds for `alice` (her artifact is rewritten), reports the
unknown-account failure for `ghost`, and tallies 1 success out of 2. -/
theorem c6_partial_failure_isolation :
    (∀ (db : UserDb) (pathExists : List Char → Bool) (payload : List Char)
        (users : List (List Char)) (arts : List Char → ArtifactState),
      (updateUsers db pathExists payload users arts).1 =
        users.countP (fun u => reconcileOk u db pathExists)) ∧
    ((updateUsers (.available [("alice".toList, "/home/alice".toList)])
        (fun _ => false) [] ["alice".toList, "ghost".toList]
        (fun _ => emptyArtifact)).1 = 1 ∧
      (["alice".toList, "ghost".toList] : List (List Char)).length = 2 ∧
      resolveHome "ghost".toList
        (.available [("alice".toList, "/home/alice".toList)]) (fun _ => false) =
        .error .unknownAccount ∧
      reconcileOk "alice".toList
        (.available [("alice".toList, "/home/alice".toList)]) (fun _ => false) =
        true ∧
      (updateUsers (.available [("alice".toList, "/home/alice".toList)])
        (fun _ => false) [] ["alice".toList, "ghost".toList]
        (fun _ => emptyArtifact)).2 "/home/alice".toList =
        applyUpdate emptyArtifact []) := by
  constructor
  · intro db pe payload users
    induction users with
    | nil => intro arts; rfl
    | cons u rest ih =>
      intro arts
      cases hres : resolveHome u db pe with
      | ok home =>
        have hupd : update_authorized_keys u db pe arts payload =
            .ok (home, applyUpdate (arts home) payload) := by
          unfold update_authorized_keys
          rw [hres]
        have hok : reconcileOk u db pe = true := by
          unfold reconcileOk
          rw [hres]
        simp only [updateUsers, hupd, List.countP_cons, hok, if_pos]
        rw [ih]
      | error e =>
        have hupd : update_authorized_keys u db pe arts payload = .error e := by
          unfold update_authorized_keys
          rw [hres]
        have hok : reconcileOk u db pe = false := by
          unfold reconcileOk
          rw [hres]
        simp only [updateUsers, hupd, List.countP_cons, hok]
        rw [ih]
        simp
  · exact ⟨rfl, rfl, by rfl, rfl, rfl⟩

/-- Counterexample to C8 as stated: an HTTP 404, an HTTP 401, another
non-2xx code and a transport-level failure all make
`fetch_authorized_keys` return the one value `None` — the caller cannot
tell the failure kinds apart from the returned value. -/
theorem c8_counterexample :
    fetch_authorized_keys (.httpError 404) = none ∧
    fetch_authorized_keys (.httpError 401) = none ∧
    fetch_authorized_keys (.httpError 500) = none ∧
    fetch_authorized_keys .urlError = none ∧
    fetch_authorized_keys (.httpError 404) = fetch_authorized_keys .urlError :=
  ⟨rfl, rfl, rfl, rfl, rfl⟩

/-- Claim C8 (amended): the fetch operation classifies its failure
causes only in the log message it emits — 404 as group-not-found, 401 as
auth-failed, any other `HTTPError` code as an HTTP failure carrying the
code, and a transport-level `URLError` as a network error — while its
returned value is `None` for every failure (a body is returned only on
a 200 response). -/
theorem c8_fetch_classification_in_log (c : Nat) (ev : FetchEvent)
    (h404 : c ≠ 404) (h401 : c ≠ 401) :
    fetchLogMsg (.httpError 404) = .groupNotFound ∧
    fetchLogMsg (.httpError 401) = .authFailed ∧
    fetchLogMsg (.httpError c) = .httpFailure c ∧
    fetchLogMsg .urlError = .networkError ∧
    (fetch_authorized_keys ev = none ∨
      ∃ body, ev = .response 200 body ∧ fetch_authorized_keys ev = some body) := by
  refine ⟨rfl, rfl, ?_, rfl, ?_⟩
  · simp [fetchLogMsg, h404, h401]
  · cases ev with
    | response s body =>
      by_cases hs : s = 200
      · subst hs
        exact Or.inr ⟨body, rfl, rfl⟩
      · exact Or.inl (by simp [fetch_authorized_keys, hs])
    | httpError c2 => exact Or.inl rfl
    | urlError => exact Or.inl rfl
    | otherError => exact Or.inl rfl

/-- Witness for C8 (amended) at code 500 and the 404 event. -/
theorem c8_witness :
    (500 : Nat) ≠ 404 ∧ (500 : Nat) ≠ 401 ∧
    (fetchLogMsg (.httpError 404) = .groupNotFound ∧
      fetchLogMsg (.httpError 401) = .authFailed ∧
      fetchLogMsg (.httpError 500) = .httpFailure 500 ∧
      fetchLogMsg .urlError = .networkError ∧
      (fetch_authorized_keys (.httpError 404) = none ∨
        ∃ body, FetchEvent.httpError 404 = .response 200 body ∧
          fetch_authorized_keys (.httpError 404) = some body)) :=
  ⟨by decide, by decide,
    c8_fetch_classification_in_log 500 (.httpError 404) (by decide) (by decide)⟩
